import Mathlib

/-!
Verification of the periodic transcript-analysis pipeline of the
SeemsSmartToMe repository: the transcript buffer and scheduler of
`src/workers/orchestrator.worker.ts`, the local text analyzer of
`src/utils/summarize.ts`, the enrichment worker
`src/workers/enricher.worker.ts` (and its legacy retrieval variant), and
the feed/settings store of `src/App.tsx`.

JavaScript strings are modelled as Lean `String`/`List Char`; the JS
string primitives used by the code (`trim`, `split` on the two concrete
regexes, `join`, `toLowerCase`, `Set` deduplication, `slice`) are embedded
below as executable Lean functions that follow the ECMAScript semantics on
the code-point ranges exercised by this code base.
-/

/-- Whitespace test used by `String.prototype.trim` and by `\s` in the split
regexes; modelled for the four common ASCII whitespace characters (the only
whitespace this code base produces). -/
def isWs (c : Char) : Bool :=
  c == ' ' || c == '\t' || c == '\n' || c == '\r'

/-- `String.prototype.trim`: drop leading and trailing whitespace. -/
def jsTrim (s : String) : String :=
  String.mk (((s.data.dropWhile isWs).reverse.dropWhile isWs).reverse)

/-- The Unicode word-character class `[\p{L}\p{N}]` of the split regex
`/[^\p{L}\p{N}]+/u`, modelled on ASCII alphanumerics plus the Latin-1
Supplement and Latin Extended-A letters (which cover all Portuguese text in
the repository); `×` (U+00D7) and `÷` (U+00F7) are excluded as in Unicode. -/
def isWordChar (c : Char) : Bool :=
  c.isAlphanum ||
    (decide (0xC0 ≤ c.toNat) && decide (c.toNat ≤ 0x17F) &&
      decide (c.toNat ≠ 0xD7) && decide (c.toNat ≠ 0xF7))

/-- `String.prototype.toLowerCase`, modelled on ASCII and the Latin-1
uppercase range (A-Z and À-Þ map down by 0x20; everything else is fixed). -/
def jsToLower (c : Char) : Char :=
  if 'A' ≤ c ∧ c ≤ 'Z' then Char.ofNat (c.toNat + 32)
  else if 0xC0 ≤ c.toNat ∧ c.toNat ≤ 0xDE ∧ c.toNat ≠ 0xD7 then Char.ofNat (c.toNat + 32)
  else c

/-- Worker for `str.split(re)` where `re` matches maximal runs of characters
satisfying `p`: `state = some cur` means a token `cur` (reversed) is being
built, `state = none` means the scanner is inside a separator run that has
already emitted the preceding token. Leading/trailing separator runs yield
empty tokens, exactly as in ECMAScript `String.prototype.split`. -/
def splitRunsGo (p : Char → Bool) : List Char → Option (List Char) → List (List Char)
  | [], none => [[]]
  | [], some cur => [cur.reverse]
  | c :: rest, none =>
      if p c then splitRunsGo p rest none
      else splitRunsGo p rest (some [c])
  | c :: rest, some cur =>
      if p c then cur.reverse :: splitRunsGo p rest none
      else splitRunsGo p rest (some (c :: cur))

/-- `str.split(re)` for a regex matching maximal nonempty runs of characters
satisfying `p` (such as `/[^\p{L}\p{N}]+/u` with `p := fun c => !isWordChar c`). -/
def splitRuns (p : Char → Bool) (l : List Char) : List (List Char) :=
  splitRunsGo p l (some [])

/-- Does the list start with a whitespace character? (the one-character
lookahead needed to recognise the regex `/\.\s+/`). -/
def headIsWs : List Char → Bool
  | [] => false
  | c :: _ => isWs c

/-- Worker for `str.split(/\.\s+/)`: a split happens at a period that is
immediately followed by whitespace, and the (greedy) `\s+` consumes the
whole whitespace run; `state = none` means the scanner is consuming that
whitespace run. A period not followed by whitespace is an ordinary
character. -/
def sumSplitGo : List Char → Option (List Char) → List (List Char)
  | [], none => [[]]
  | [], some cur => [cur.reverse]
  | c :: rest, none =>
      if isWs c then sumSplitGo rest none
      else if c == '.' && headIsWs rest then [] :: sumSplitGo rest none
      else sumSplitGo rest (some [c])
  | c :: rest, some cur =>
      if c == '.' && headIsWs rest then cur.reverse :: sumSplitGo rest none
      else sumSplitGo rest (some (c :: cur))

/-- `str.split(/\.\s+/)` from `summarizeLocal`. -/
def sumSplit (l : List Char) : List (List Char) :=
  sumSplitGo l (some [])

/-- `Array.prototype.join(sep)`. -/
def jsJoin (sep : String) : List String → String
  | [] => ""
  | [x] => x
  | x :: y :: rest => x ++ sep ++ jsJoin sep (y :: rest)

/-- Worker for `Array.from(new Set(xs))`: keep the first occurrence of each
element, in insertion order; `seen` holds the elements already emitted. -/
def jsSetAux : List String → List String → List String
  | _, [] => []
  | seen, x :: xs =>
      if x ∈ seen then jsSetAux seen xs
      else x :: jsSetAux (x :: seen) xs

/-- `Array.from(new Set(xs))`: deduplication preserving first-seen order. -/
def jsSetList (l : List String) : List String :=
  jsSetAux [] l

/-- `src/utils/summarize.ts`, inside `summarizeLocal`:
`text.split(/\.\s+/).filter(Boolean)` — the non-empty sentences. -/
def localSentences (text : String) : List String :=
  ((sumSplit text.data).map (fun l => String.mk l)).filter (fun s => s ≠ "")

/-- `src/utils/summarize.ts`, `summarizeLocal`:
`sentences.slice(0, 2).join('. ') + (sentences.length > 0 ? '.' : '')`. -/
def summarizeLocal (text : String) : String :=
  jsJoin ". " ((localSentences text).take 2) ++
    (if (localSentences text).length > 0 then "." else "")

/-- `extractKeywordsLocal` (from the summarize utility), tokenization stage:
`text.toLowerCase().split(/[^\p{L}\p{N}]+/u)`. -/
def localTokens (text : String) : List String :=
  (splitRuns (fun c => !isWordChar c) (text.data.map jsToLower)).map (fun l => String.mk l)

/-- `extractKeywordsLocal(text)`:
`Array.from(new Set(tokens.filter(w => w.length > 3))).slice(0, 6)`. -/
def extractKeywordsLocal (text : String) : List String :=
  (jsSetList ((localTokens text).filter (fun w => w.length > 3))).take 6

/-- The spec's description of `extractKeywordsLocal`, written independently:
lowercased tokens, only those longer than 3 characters, deduplicated
preserving first-seen order (here by a left fold), at most 6 entries. -/
def extractKeywordsSpec (text : String) : List String :=
  (((localTokens text).filter (fun w => 3 < w.length)).foldl
    (fun acc w => if w ∈ acc then acc else acc ++ [w]) []).take 6

/-! ### JSON values

The worker code feeds `JSON.parse` output, an arbitrary dynamic value, into
the result objects it posts. `JVal` is the value universe of `JSON.parse`. -/

/-- A parsed JSON value, as produced by `JSON.parse`. -/
inductive JVal where
  | jnull : JVal
  | jbool : Bool → JVal
  | jnum : Int → JVal
  | jstr : String → JVal
  | jarr : List JVal → JVal
  | jobj : List (String × JVal) → JVal

/-- Property lookup `obj[k]` on the field list of a JSON object
(`undefined` is `none`). -/
def lookupField : List (String × JVal) → String → Option JVal
  | [], _ => none
  | (k, v) :: rest, key => if k = key then some v else lookupField rest key

/-- Property access `j.k` on a parsed JSON value (`undefined` is `none`). -/
def jlookup (j : JVal) (key : String) : Option JVal :=
  match j with
  | JVal.jobj fields => lookupField fields key
  | _ => none

/-- `Array.isArray`. -/
def isArr : JVal → Bool
  | JVal.jarr _ => true
  | _ => false

/-- `typeof v === 'string'`. -/
def isStr : JVal → Bool
  | JVal.jstr _ => true
  | _ => false

/-- Is the value an array whose elements are all strings? (the "array of
strings" type the spec says the `topics` field is validated against). -/
def isStringArr : JVal → Bool
  | JVal.jarr xs => xs.all isStr
  | _ => false

/-! ### Orchestrator worker: `src/workers/orchestrator.worker.ts`

The worker's module state is `buffer`, `timer`, `cadence`, `language`,
`openaiKey` and `offline`; `onmessage` handles `init` and `transcript`
messages.  The browser timer table is modelled explicitly as the list of
installed-and-not-cleared interval timers, each a pair of a (nonzero)
handle and its interval in milliseconds, so that `setInterval` /
`clearInterval` and the `if (timer)` truthiness test are faithful. -/

/-- A message accepted by the orchestrator worker (`InitMessage` carries the
cadence in seconds plus language and key; `TranscriptMessage` carries a text
fragment and the current offline flag). -/
inductive OrchMsg where
  | init : Nat → String → String → OrchMsg
  | transcript : String → Bool → OrchMsg

/-- Module state of the orchestrator worker together with the timer table of
its environment. -/
structure OrchState where
  buffer : String
  timers : List (Nat × Nat)
  timer : Option Nat
  nextHandle : Nat
  cadence : Nat
  language : String
  openaiKey : String
  offline : Bool

/-- Initial module state (`buffer = ''`, `timer` undefined,
`cadence = 10000`, `language = 'pt-BR'`, `openaiKey = ''`,
`offline = false`); timer handles are issued from 1 so that every issued
handle is truthy. -/
def initialOrchState : OrchState :=
  { buffer := ""
    timers := []
    timer := none
    nextHandle := 1
    cadence := 10000
    language := "pt-BR"
    openaiKey := ""
    offline := false }

/-- The `self.onmessage` handler of the orchestrator worker.  On `init` it
stores `cadence * 1000`, the language and the key, clears the previous
interval if the `timer` variable is set, and installs a fresh interval with
the new cadence.  On `transcript` it appends `' ' + text` to the buffer and
records the offline flag. -/
def onmessage (s : OrchState) : OrchMsg → OrchState
  | OrchMsg.init c lang key =>
      let cadenceMs := c * 1000
      let remaining :=
        match s.timer with
        | some h => s.timers.filter (fun e => e.1 ≠ h)
        | none => s.timers
      { s with
          cadence := cadenceMs
          language := lang
          openaiKey := key
          timers := remaining ++ [(s.nextHandle, cadenceMs)]
          timer := some s.nextHandle
          nextHandle := s.nextHandle + 1 }
  | OrchMsg.transcript text off =>
      { s with buffer := s.buffer ++ " " ++ text, offline := off }

/-- Run the worker from its initial state over a message sequence. -/
def orchRun (msgs : List OrchMsg) : OrchState :=
  msgs.foldl onmessage initialOrchState

/-- The buffer handling at the top of `processBuffer` (the timer callback):
`const text = buffer.trim(); if (!text) return; buffer = ''` followed by the
analysis of `text`.  The result is the buffer value at the moment the
asynchronous analysis is issued, paired with the text handed to the
analysis (`none` when the callback returns without analysing). -/
def processBufferStep (buffer : String) : String × Option String :=
  let text := jsTrim buffer
  if text = "" then (buffer, none) else ("", some text)

/-- Outcome of the remote interaction inside `processBuffer`:
`netError` — the `fetch` promise rejected; `httpError` — `res.ok` was
false; `parseErr content` — `JSON.parse` (or the `data.choices[0]` access)
threw, with `content` the raw `data.choices?.[0]?.message?.content || ''`;
`parsed j` — the cleaned content parsed to the JSON value `j`. -/
inductive FetchOutcome where
  | netError : FetchOutcome
  | httpError : FetchOutcome
  | parseErr : String → FetchOutcome
  | parsed : JVal → FetchOutcome

/-- `result.topics = Array.isArray(parsed.topics) ? parsed.topics : []`
(orchestrator worker, parse-success branch). -/
def orchTopicsAssigned (parsed : JVal) : JVal :=
  match jlookup parsed "topics" with
  | some (JVal.jarr xs) => JVal.jarr xs
  | _ => JVal.jarr []

/-- The element list behind `orchTopicsAssigned`. -/
def topicsFromParsed (parsed : JVal) : List JVal :=
  match jlookup parsed "topics" with
  | some (JVal.jarr xs) => xs
  | _ => []

/-- The final guard of `processBuffer`:
`if (result.topics.length === 0) result.topics = extractKeywordsLocal(text)`. -/
def finalGuard (tops : List JVal) (text : String) : List JVal :=
  if tops.length = 0 then (extractKeywordsLocal text).map JVal.jstr else tops

/-- The parse-error fallback of `processBuffer`:
`Array.from(new Set(content.split(/[^\p{L}\p{N}]+/u).filter(w => w.length > 4)))`. -/
def parseErrWords (content : String) : List String :=
  jsSetList
    (((splitRuns (fun c => !isWordChar c) content.data).map (fun l => String.mk l)).filter
      (fun w => w.length > 4))

/-- The `topics` list posted by one `processBuffer` run of the orchestrator
worker (first variant, the one built into the app), as a function of the
buffer contents, the `offline`/`openaiKey` module state and the remote
outcome.  `none` means the callback returned without posting (empty
buffer); on the `httpError` path the fallback is posted directly, skipping
the final guard, exactly as in the early return of the source. -/
def processBufferTopics (buffer : String) (offline : Bool) (openaiKey : String)
    (outcome : FetchOutcome) : Option (List JVal) :=
  let text := jsTrim buffer
  if text = "" then none
  else if offline || openaiKey = "" then
    some (finalGuard ((extractKeywordsLocal text).map JVal.jstr) text)
  else
    match outcome with
    | FetchOutcome.httpError => some ((extractKeywordsLocal text).map JVal.jstr)
    | FetchOutcome.netError => some (finalGuard ((extractKeywordsLocal text).map JVal.jstr) text)
    | FetchOutcome.parseErr content =>
        let fallback := parseErrWords content
        let tops := if fallback.length > 0 then (fallback.take 5).map JVal.jstr
          else (extractKeywordsLocal text).map JVal.jstr
        some (finalGuard tops text)
    | FetchOutcome.parsed j => some (finalGuard (topicsFromParsed j) text)

/-- Second orchestrator variant, parse handling (`result = JSON.parse(...)`
on success, `result.summary = content || ''` on failure): the posted result
object as a JSON value.  On parse success the parsed value is assigned
wholesale, with no validation of any field. -/
def extractResultV2 (parsed : Option JVal) (rawContent : String) : JVal :=
  match parsed with
  | some j => j
  | none =>
      JVal.jobj
        [("summary", JVal.jstr rawContent), ("topics", JVal.jarr []),
          ("intents", JVal.jarr []), ("questions", JVal.jarr [])]


/-! ### Enrichment worker: `src/workers/enricher.worker.ts`

The current enricher builds two accumulator arrays `news` and `insights`.
Two branches post early (empty topics; offline or no key).  Otherwise the
whole remote interaction — request with 10s timeout, HTTP status check,
JSON parsing and field validation, plus both `catch` handlers — runs inside
one `try`/`catch` region with no early return, so control always reaches
the two final guards with *some* pair of accumulated lists; the guards and
the early branches are embedded from the source and the remote interaction
is abstracted as the pair of lists it accumulated.  `encode` stands for
`encodeURIComponent` (a pure string function whose output the claims do not
depend on). -/

/-- A news entry `{title, url}` as posted by the enricher. -/
structure NewsItem where
  title : String
  url : String

/-- The two final guards of the enricher (`if (insights.length === 0)` add
one `💭` placeholder per topic; `if (news.length === 0)` add one Google
News search link per topic, at most 3). -/
def enrichGuards (topics : List String) (encode : String → String)
    (news0 : List NewsItem) (insights0 : List String) : List NewsItem × List String :=
  let insights :=
    if insights0.length = 0 then
      topics.map (fun t => "💭 " ++ t ++ ": mantenha no radar")
    else insights0
  let news :=
    if news0.length = 0 then
      (topics.take 3).map (fun t =>
        { title := "📰 Pesquisar notícias: " ++ t
          url := "https://news.google.com/search?q=" ++ encode t ++ "&hl=pt-BR" })
    else news0
  (news, insights)

/-- The `(news, insights)` pair posted by one run of the enricher worker's
`onmessage`, as a function of the message fields and of the pair
`(news0, insights0)` accumulated by the remote interaction (which is
`([], [...])` on timeout, HTTP failure, network failure and parse failure,
and the validated parsed content on success — any value of the pair
corresponds to some remote outcome). -/
def enrichPosted (topics : List String) (openaiKey : String) (offline : Bool)
    (encode : String → String) (news0 : List NewsItem) (insights0 : List String) :
    List NewsItem × List String :=
  if topics.length = 0 then
    ([{ title := "Nenhum tópico para pesquisar", url := "#" }],
      ["Aguardando tópicos para enriquecer"])
  else if offline || openaiKey = "" then
    ((topics.take 3).map (fun t =>
        { title := "🔍 Pesquisar " ++ t
          url := "https://www.google.com/search?q=" ++ encode (t ++ " notícias Brasil") }),
      topics.map (fun t => "📊 " ++ t ++ ": insight gerado offline"))
  else enrichGuards topics encode news0 insights0

/-! ### Legacy retrieval enricher (second variant in the repository)

`onmessage` of the second retrieval variant: offline posts
`{news: [], insights: []}` immediately; otherwise each topic is queried
against NewsAPI and Bing, per-source failures are swallowed, and the final
post always carries `insights: []`.  The per-topic, per-source outcomes are
abstracted as `Option NewsItem` valued functions (`none` — the fetch threw
or returned no first article). -/

/-- The `(news, insights)` pair posted by one run of the legacy retrieval
enricher variant. -/
def enrichRetrievalPosted (topics : List String) (newsApiKey bingKey : String) (offline : Bool)
    (newsApiOutcome bingOutcome : String → Option NewsItem) :
    List NewsItem × List String :=
  if offline then ([], [])
  else
    (topics.foldl
      (fun acc t =>
        let acc :=
          match newsApiOutcome t with
          | some item => acc ++ [item]
          | none => acc
        match bingOutcome t with
        | some item => acc ++ [item]
        | none => acc)
      [],
    [])

/-! ### Feed and settings store: `src/App.tsx` (zustand store) -/

/-- A feed item (`FeedItem` interface of the store). -/
structure FeedItem where
  id : Nat
  summary : String
  topics : List String
  intents : List String
  questions : List String
  news : List NewsItem
  insights : List String
  timestamp : Nat

/-- `updateFeedItem(id, data)` at the enricher completion call site, where
`data = {news, insights}`:
`feed.map((f) => (f.id === id ? { ...f, ...data } : f))` — the spread
replaces the `news` and `insights` fields of every item whose id matches. -/
def updateFeedItemEnrich (feed : List FeedItem) (id : Nat)
    (news : List NewsItem) (insights : List String) : List FeedItem :=
  feed.map (fun f =>
    if f.id = id then { f with news := news, insights := insights } else f)

/-- The `Settings` record of the store. -/
structure Settings where
  cadence : Nat
  language : String
  openaiKey : String

/-- A `Partial<Settings>` update: each field either absent or present. -/
structure SettingsPatch where
  cadence : Option Nat
  language : Option String
  openaiKey : Option String

/-- `setSettings: (s) => set({ settings: { ...get().settings, ...s } })` —
object spread: a field present in the patch overrides, an absent field is
kept from the current settings. -/
def setSettings (cur : Settings) (p : SettingsPatch) : Settings :=
  { cadence := p.cadence.getD cur.cadence
    language := p.language.getD cur.language
    openaiKey := p.openaiKey.getD cur.openaiKey }

/-- The concatenation of a sequence of transcript fragments, each appended
as `' ' + text`, starting from an empty buffer (the spec-side description
of the buffer contents accumulated since the last flush). -/
def appendedFragments (frags : List (String × Bool)) : String :=
  frags.foldl (fun acc p => acc ++ " " ++ p.1) ""

/-- The worker-state invariant behind the single-timer property: at most
one interval timer is installed, and any installed timer is the one held by
the `timer` variable, firing every `cadence` milliseconds. -/
def TimerInv (s : OrchState) : Prop :=
  s.timers.length ≤ 1 ∧ ∀ e ∈ s.timers, s.timer = some e.1 ∧ e.2 = s.cadence

/-- A concrete feed item used to instantiate the feed-update theorems. -/
def sampleItem : FeedItem :=
  { id := 2
    summary := "s"
    topics := ["mercado"]
    intents := []
    questions := []
    news := []
    insights := []
    timestamp := 5 }

/-! ### Helper lemmas -/

theorem jsSetAux_subset (l : List String) : ∀ (seen : List String) (x : String),
    x ∈ jsSetAux seen l → x ∈ l := by
  induction l with
  | nil => intro seen x h; simp [jsSetAux] at h
  | cons a as ih =>
      intro seen x h
      by_cases ha : a ∈ seen
      · rw [jsSetAux, if_pos ha] at h
        exact List.mem_cons_of_mem _ (ih seen x h)
      · rw [jsSetAux, if_neg ha] at h
        rcases List.mem_cons.mp h with h | h
        · subst h; exact List.mem_cons_self _ _
        · exact List.mem_cons_of_mem _ (ih (a :: seen) x h)

theorem jsSetAux_not_mem_seen (l : List String) : ∀ (seen : List String) (x : String),
    x ∈ jsSetAux seen l → x ∉ seen := by
  induction l with
  | nil => intro seen x h; simp [jsSetAux] at h
  | cons a as ih =>
      intro seen x h
      by_cases ha : a ∈ seen
      · rw [jsSetAux, if_pos ha] at h
        exact ih seen x h
      · rw [jsSetAux, if_neg ha] at h
        rcases List.mem_cons.mp h with h | h
        · subst h; exact ha
        · intro hx
          exact ih (a :: seen) x h (List.mem_cons_of_mem _ hx)

theorem jsSetAux_nodup (l : List String) : ∀ seen : List String, (jsSetAux seen l).Nodup := by
  induction l with
  | nil => intro seen; simp [jsSetAux]
  | cons a as ih =>
      intro seen
      by_cases ha : a ∈ seen
      · rw [jsSetAux, if_pos ha]; exact ih seen
      · rw [jsSetAux, if_neg ha]
        refine List.nodup_cons.mpr ⟨fun hmem => ?_, ih (a :: seen)⟩
        exact jsSetAux_not_mem_seen as (a :: seen) a hmem (List.mem_cons_self _ _)

theorem dedup_foldl_eq (l : List String) : ∀ (acc seen : List String),
    (∀ x, x ∈ acc ↔ x ∈ seen) →
    l.foldl (fun acc w => if w ∈ acc then acc else acc ++ [w]) acc = acc ++ jsSetAux seen l := by
  induction l with
  | nil => intro acc seen _; simp [jsSetAux]
  | cons a as ih =>
      intro acc seen hiff
      by_cases ha : a ∈ acc
      · have hs : a ∈ seen := (hiff a).mp ha
        rw [List.foldl_cons, if_pos ha, jsSetAux, if_pos hs]
        exact ih acc seen hiff
      · have hs : a ∉ seen := fun h => ha ((hiff a).mpr h)
        rw [List.foldl_cons, if_neg ha, jsSetAux, if_neg hs]
        rw [ih (acc ++ [a]) (a :: seen) ?_]
        · simp
        · intro x
          simp only [List.mem_append, List.mem_singleton, List.mem_cons, hiff x]
          tauto

/-! ### Claims about the local text analyzer -/

/-- C3: `extractKeywordsLocal` returns the lowercased tokens obtained by
splitting on runs of non-letter/non-digit characters, keeping only tokens
of length > 3, deduplicated preserving first-seen order (stated as equality
with the independently written `extractKeywordsSpec`), with no duplicates,
at most 6 entries, every entry longer than 3 characters; and on the
Portuguese sample sentence it returns exactly the six expected keywords. -/
theorem spec_C3_extractKeywordsLocal :
    (∀ t, extractKeywordsLocal t = extractKeywordsSpec t) ∧
    (∀ t, (extractKeywordsLocal t).Nodup) ∧
    (∀ t, (extractKeywordsLocal t).length ≤ 6) ∧
    (∀ t w, w ∈ extractKeywordsLocal t → 3 < w.length) ∧
    extractKeywordsLocal
        "Mercado financeiro em alta com ações de tecnologia em destaque e investidores atentos." =
      ["mercado", "financeiro", "alta", "ações", "tecnologia", "destaque"] := by
  refine ⟨?_, ?_, ?_, ?_, by decide⟩
  · intro t
    rw [extractKeywordsSpec, dedup_foldl_eq _ [] [] (by simp)]
    rfl
  · intro t
    exact (List.take_sublist _ _).nodup (jsSetAux_nodup _ [])
  · intro t
    exact List.length_take_le _ _
  · intro t w hw
    have h1 : w ∈ jsSetAux [] ((localTokens t).filter (fun w => w.length > 3)) :=
      List.take_subset _ _ hw
    have h2 := jsSetAux_subset _ [] w h1
    exact of_decide_eq_true (List.mem_filter.mp h2).2

/-- C3 witness: the length bound applied at a concrete keyword of a
concrete input. -/
theorem spec_C3_extractKeywordsLocal_witness : 3 < ("mercado" : String).length :=
  spec_C3_extractKeywordsLocal.2.2.2.1 "Mercado bom" "mercado" (by decide)

/-- C4: `summarizeLocal` splits on the sentence-ending punctuation `.`
followed by whitespace, keeps the first two non-empty sentences, rejoins
them with `". "`, appends a trailing period if any sentence existed,
returns `""` for empty input, and on the three-sentence sample returns the
first two sentences. -/
theorem spec_C4_summarizeLocal :
    summarizeLocal "" = "" ∧
    summarizeLocal "Primeira frase. Segunda frase. Terceira frase." =
      "Primeira frase. Segunda frase." ∧
    (∀ t, localSentences t = [] → summarizeLocal t = "") ∧
    (∀ t s1, localSentences t = [s1] → summarizeLocal t = s1 ++ ".") ∧
    (∀ t s1 s2 rest, localSentences t = s1 :: s2 :: rest →
      summarizeLocal t = (s1 ++ ". " ++ s2) ++ ".") ∧
    (∀ t s, s ∈ localSentences t → s ≠ "") := by
  refine ⟨by decide, by decide, ?_, ?_, ?_, ?_⟩
  · intro t h; simp [summarizeLocal, h, jsJoin]
  · intro t s1 h; simp [summarizeLocal, h, jsJoin]
  · intro t s1 s2 rest h; simp [summarizeLocal, h, jsJoin]
  · intro t s hs
    rw [localSentences, List.mem_filter] at hs
    simpa using hs.2

/-- C4 witness: the one-sentence case applied at a concrete input. -/
theorem spec_C4_summarizeLocal_witness : summarizeLocal "Ola" = "Ola" ++ "." :=
  spec_C4_summarizeLocal.2.2.2.1 "Ola" "Ola" (by decide)

/-- C9: there is a non-empty input text, here `" a b c"` (all tokens of
length ≤ 3), on which `extractKeywordsLocal` returns the empty list, so the
topics list computed by the local fallback inside `processBuffer` is empty
even though the flushed transcript was non-empty. -/
theorem spec_C9_empty_keywords :
    ∃ text : String, jsTrim text ≠ "" ∧ extractKeywordsLocal (jsTrim text) = [] ∧
      processBufferTopics text true "" FetchOutcome.netError = some [] := by
  refine ⟨" a b c", by decide, by decide, by rfl⟩

theorem foldl_transcript_buffer : ∀ (frags : List (String × Bool)) (s0 : OrchState),
    (frags.foldl (fun st p => onmessage st (OrchMsg.transcript p.1 p.2)) s0).buffer =
      frags.foldl (fun acc p => acc ++ " " ++ p.1) s0.buffer := by
  intro frags
  induction frags with
  | nil => intro s0; rfl
  | cons p ps ih =>
      intro s0
      rw [List.foldl_cons, List.foldl_cons, ih]
      rfl

theorem timerInv_init_timers (s : OrchState) (h : TimerInv s) (c : Nat) (lang key : String) :
    (onmessage s (OrchMsg.init c lang key)).timers = [(s.nextHandle, c * 1000)] := by
  obtain ⟨hlen, hall⟩ := h
  cases ht : s.timer with
  | none =>
      have hnil : s.timers = [] := by
        cases hs : s.timers with
        | nil => rfl
        | cons e es =>
            exfalso
            have := (hall e (by rw [hs]; exact List.mem_cons_self _ _)).1
            rw [ht] at this
            cases this
      simp [onmessage, ht, hnil]
  | some hdl =>
      simp [onmessage, ht]
      intro a b hab
      have h1 := (hall (a, b) hab).1
      rw [ht] at h1
      exact (Option.some.inj h1).symm

theorem timerInv_step (s : OrchState) (m : OrchMsg) (h : TimerInv s) :
    TimerInv (onmessage s m) := by
  cases m with
  | init c lang key =>
      have htimers := timerInv_init_timers s h c lang key
      refine ⟨by rw [htimers]; exact le_refl 1, ?_⟩
      intro e he
      rw [htimers] at he
      simp only [List.mem_singleton] at he
      subst he
      exact ⟨rfl, rfl⟩
  | transcript text off =>
      exact ⟨h.1, fun e he => h.2 e he⟩

theorem timerInv_run : ∀ (msgs : List OrchMsg) (s : OrchState),
    TimerInv s → TimerInv (msgs.foldl onmessage s) := by
  intro msgs
  induction msgs with
  | nil => intro s h; exact h
  | cons m ms ih => intro s h; exact ih _ (timerInv_step s m h)

theorem timerInv_initial : TimerInv initialOrchState :=
  ⟨by simp [initialOrchState], by simp [initialOrchState]⟩

/-! ### Claims about the transcript buffer and scheduler -/

/-- C1: after any sequence of transcript fragments appended (each as
`' ' + text`) to an empty buffer, firing the timer callback hands the
analysis exactly the trimmed concatenation of those fragments, with the
buffer already reset to `""` at the moment the asynchronous analysis is
issued; if the trimmed buffer is empty, the callback is a no-op that emits
nothing and leaves the buffer untouched. -/
theorem spec_C1_buffer_flush :
    ∀ (s0 : OrchState) (frags : List (String × Bool)) (s : OrchState),
      s0.buffer = "" →
      s = frags.foldl (fun st p => onmessage st (OrchMsg.transcript p.1 p.2)) s0 →
      s.buffer = appendedFragments frags ∧
      (jsTrim s.buffer ≠ "" → processBufferStep s.buffer = ("", some (jsTrim s.buffer))) ∧
      (jsTrim s.buffer = "" → processBufferStep s.buffer = (s.buffer, none)) := by
  intro s0 frags s h0 hs
  refine ⟨?_, ?_, ?_⟩
  · rw [hs, foldl_transcript_buffer, h0, appendedFragments]
  · intro h
    rw [processBufferStep, if_neg h]
  · intro h
    rw [processBufferStep, if_pos h]

/-- C1 witness: one fragment `"ola"` appended to the initial state; the
callback extracts `"ola"` and clears the buffer. -/
theorem spec_C1_buffer_flush_witness :
    processBufferStep (([(("ola" : String), false)].foldl
        (fun st p => onmessage st (OrchMsg.transcript p.1 p.2)) initialOrchState).buffer) =
      ("", some "ola") := by
  have h := spec_C1_buffer_flush initialOrchState [("ola", false)] _ rfl rfl
  rw [h.2.1 (by decide)]
  decide

/-- C8: after every message sequence at most one interval timer is
installed, and after a sequence ending in `init(c, lang, key)` exactly one
timer is installed, firing every `c * 1000` milliseconds — re-initialization
cancels the prior timer before installing the new one. -/
theorem spec_C8_single_timer :
    (∀ msgs : List OrchMsg, (orchRun msgs).timers.length ≤ 1) ∧
    (∀ (msgs : List OrchMsg) (c : Nat) (lang key : String),
      (orchRun (msgs ++ [OrchMsg.init c lang key])).timers.length = 1 ∧
      ∀ e ∈ (orchRun (msgs ++ [OrchMsg.init c lang key])).timers, e.2 = c * 1000) := by
  have hrun : ∀ msgs, TimerInv (orchRun msgs) :=
    fun msgs => timerInv_run msgs _ timerInv_initial
  refine ⟨fun msgs => (hrun msgs).1, ?_⟩
  intro msgs c lang key
  have happ : orchRun (msgs ++ [OrchMsg.init c lang key]) =
      onmessage (orchRun msgs) (OrchMsg.init c lang key) := by
    rw [orchRun, List.foldl_append]
    rfl
  have ht := timerInv_init_timers (orchRun msgs) (hrun msgs) c lang key
  rw [happ, ht]
  refine ⟨rfl, ?_⟩
  intro e he
  simp only [List.mem_singleton] at he
  rw [he]

/-- C8 witness: two rapid re-initializations leave exactly one timer, with
the cadence of the second `init`. -/
theorem spec_C8_single_timer_witness :
    (orchRun ([OrchMsg.init 10 "pt-BR" "k"] ++ [OrchMsg.init 30 "pt-BR" "k"])).timers.length = 1 ∧
    ((2, 30000) : Nat × Nat).2 = 30 * 1000 := by
  have h := spec_C8_single_timer.2 [OrchMsg.init 10 "pt-BR" "k"] 30 "pt-BR" "k"
  exact ⟨h.1, h.2 (2, 30000) (by decide)⟩

theorem map_jstr_ne_nil {l : List String} (h : l ≠ []) : l.map JVal.jstr ≠ [] := by
  intro hc
  rw [List.map_eq_nil_iff] at hc
  exact h hc

theorem finalGuard_ne_nil (t : String) (hk : extractKeywordsLocal t ≠ [])
    (tops : List JVal) : finalGuard tops t ≠ [] := by
  rw [finalGuard]
  by_cases h0 : tops.length = 0
  · rw [if_pos h0]
    exact map_jstr_ne_nil hk
  · rw [if_neg h0]
    intro hc
    rw [hc] at h0
    exact h0 rfl

/-! ### Claims about the extraction result -/

/-- C2 counterexample: the non-empty input `" a e o eu tu"` (all tokens of
length ≤ 3) is posted with an *empty* topics array on the offline/no-key
path, refuting "the extraction result has a non-empty topics array for
every non-empty input text on every path". -/
theorem spec_C2_cex :
    jsTrim " a e o eu tu" ≠ "" ∧
    processBufferTopics " a e o eu tu" true "" FetchOutcome.netError = some [] :=
  ⟨by decide, by rfl⟩

/-- C2 (amended): whenever the local keyword extraction of the trimmed text
is non-empty (in particular whenever the text has a token longer than 3
characters), the topics array posted by `processBuffer` is non-empty on
every path — offline/no-key, non-success HTTP status, network failure,
parse failure, and remote success with zero topics. -/
theorem spec_C2_topics_fallback :
    ∀ (buffer : String) (offline : Bool) (key : String) (outcome : FetchOutcome)
      (tops : List JVal),
      extractKeywordsLocal (jsTrim buffer) ≠ [] →
      processBufferTopics buffer offline key outcome = some tops →
      tops ≠ [] := by
  intro buffer offline key outcome tops hk hp
  simp only [processBufferTopics] at hp
  split at hp
  · cases hp
  · split at hp
    · injection hp with h
      subst h
      exact finalGuard_ne_nil _ hk _
    · cases outcome with
      | netError =>
          injection hp with h
          subst h
          exact finalGuard_ne_nil _ hk _
      | httpError =>
          injection hp with h
          subst h
          exact map_jstr_ne_nil hk
      | parseErr content =>
          injection hp with h
          subst h
          exact finalGuard_ne_nil _ hk _
      | parsed j =>
          injection hp with h
          subst h
          exact finalGuard_ne_nil _ hk _

/-- C2 witness: a two-keyword input on the network-failure path. -/
theorem spec_C2_topics_fallback_witness :
    ([JVal.jstr "mercado", JVal.jstr "financeiro"] : List JVal) ≠ [] :=
  spec_C2_topics_fallback " mercado financeiro" true "" FetchOutcome.netError _
    (by decide) (by rfl)

/-! ### Claims about enrichment -/

theorem enrichGuards_ne_nil (t : String) (ts : List String) (encode : String → String)
    (news0 : List NewsItem) (insights0 : List String) :
    (enrichGuards (t :: ts) encode news0 insights0).1 ≠ [] ∧
    (enrichGuards (t :: ts) encode news0 insights0).2 ≠ [] := by
  constructor
  · simp only [enrichGuards]
    split
    · simp
    · rename_i h
      intro hc
      rw [hc] at h
      exact h rfl
  · simp only [enrichGuards]
    split
    · simp
    · rename_i h
      intro hc
      rw [hc] at h
      exact h rfl

/-- C5 counterexample: the legacy retrieval enricher variant posts
`{news: [], insights: []}` — both arrays empty — in offline mode, refuting
"the enrichment result never has both arrays empty for every input and
configuration". -/
theorem spec_C5_cex :
    enrichRetrievalPosted ["mercado"] "k1" "k2" true (fun _ => none) (fun _ => none) =
      ([], []) := rfl

/-- C5 (amended): the current enricher (`enricher.worker.ts`) never posts
both arrays empty — in fact both `news` and `insights` are individually
non-empty — for every topics list, every key/offline configuration and
every remote outcome (timeout, HTTP failure, network failure, parse
failure, or any accumulated parse-success content). -/
theorem spec_C5_enricher_nonempty :
    ∀ (topics : List String) (key : String) (offline : Bool) (encode : String → String)
      (news0 : List NewsItem) (insights0 : List String),
      (enrichPosted topics key offline encode news0 insights0).1 ≠ [] ∧
      (enrichPosted topics key offline encode news0 insights0).2 ≠ [] := by
  intro topics key offline encode news0 insights0
  cases topics with
  | nil => exact ⟨by simp [enrichPosted], by simp [enrichPosted]⟩
  | cons t ts =>
      have h1 : ¬((t :: ts).length = 0) := by simp
      rw [enrichPosted, if_neg h1]
      split
      · exact ⟨by simp, by simp⟩
      · exact enrichGuards_ne_nil t ts encode news0 insights0

/-! ### Claims about the feed and settings store -/

theorem map_update_id (id : Nat) (news : List NewsItem) (insights : List String) :
    ∀ feed : List FeedItem, (∀ f ∈ feed, f.id ≠ id) →
      updateFeedItemEnrich feed id news insights = feed := by
  intro feed
  induction feed with
  | nil => intro _; rfl
  | cons f fs ih =>
      intro hall
      have hf : f.id ≠ id := hall f (List.mem_cons_self _ _)
      rw [updateFeedItemEnrich, List.map_cons, if_neg hf]
      rw [updateFeedItemEnrich] at ih
      rw [ih (fun x hx => hall x (List.mem_cons_of_mem _ hx))]

/-- C6: applying an enrichment update for id `X` replaces (not appends) the
`news`/`insights` fields of exactly the items whose id equals `X`, leaves
every other item (at any position) unchanged, preserves the feed length,
and when no item has id `X` the whole feed is unchanged. -/
theorem spec_C6_updateFeedItem :
    ∀ (feed : List FeedItem) (id : Nat) (news : List NewsItem) (insights : List String),
      (updateFeedItemEnrich feed id news insights).length = feed.length ∧
      (∀ (i : Nat) (f0 : FeedItem), feed[i]? = some f0 →
        (updateFeedItemEnrich feed id news insights)[i]? =
          some (if f0.id = id then { f0 with news := news, insights := insights } else f0)) ∧
      ((∀ f ∈ feed, f.id ≠ id) → updateFeedItemEnrich feed id news insights = feed) := by
  intro feed id news insights
  refine ⟨by simp [updateFeedItemEnrich], ?_, map_update_id id news insights feed⟩
  intro i f0 hf
  rw [updateFeedItemEnrich, List.getElem?_map, hf]
  rfl

/-- C6 witness: an update for id 1 leaves a feed whose only item has id 2
unchanged. -/
theorem spec_C6_updateFeedItem_witness :
    updateFeedItemEnrich [sampleItem] 1 [] ["x"] = [sampleItem] :=
  (spec_C6_updateFeedItem [sampleItem] 1 [] ["x"]).2.2 (by
    intro f hf
    simp only [List.mem_singleton] at hf
    subst hf
    decide)

/-- C7 counterexample: on parse success the built-in orchestrator variant
only checks `Array.isArray` — an array with a non-string element is
propagated unchanged (not an array of strings) — and the second variant
assigns the parsed object wholesale, propagating a `topics` field that is
not even an array. -/
theorem spec_C7_cex :
    orchTopicsAssigned (JVal.jobj [("topics", JVal.jarr [JVal.jnum 1])]) =
      JVal.jarr [JVal.jnum 1] ∧
    isStringArr (JVal.jarr [JVal.jnum 1]) = false ∧
    extractResultV2 (some (JVal.jobj [("topics", JVal.jstr "oops")])) "" =
      JVal.jobj [("topics", JVal.jstr "oops")] ∧
    isArr (JVal.jstr "oops") = false :=
  ⟨rfl, rfl, rfl, rfl⟩

/-- C7 (amended): in the built-in variant the `topics` field is validated
as a *container* only: the assigned value is always an array, and whenever
the parsed `topics` field is absent or not an array it is replaced by the
empty array; element types are not validated (see the counterexample), and
the second variant performs no validation at all. -/
theorem spec_C7_container_validation :
    (∀ parsed : JVal, isArr (orchTopicsAssigned parsed) = true) ∧
    (∀ parsed v : JVal, jlookup parsed "topics" = some v → isArr v = false →
      orchTopicsAssigned parsed = JVal.jarr []) ∧
    (∀ parsed : JVal, jlookup parsed "topics" = none →
      orchTopicsAssigned parsed = JVal.jarr []) := by
  refine ⟨?_, ?_, ?_⟩
  · intro parsed
    rw [orchTopicsAssigned]
    split
    · rfl
    · rfl
  · intro parsed v hv hna
    rw [orchTopicsAssigned, hv]
    cases v with
    | jarr xs => simp [isArr] at hna
    | jnull => rfl
    | jbool b => rfl
    | jnum n => rfl
    | jstr s => rfl
    | jobj fields => rfl
  · intro parsed h
    rw [orchTopicsAssigned, h]

/-- C7 witness: a string-valued `topics` field is replaced by the empty
array. -/
theorem spec_C7_container_validation_witness :
    orchTopicsAssigned (JVal.jobj [("topics", JVal.jstr "x")]) = JVal.jarr [] :=
  spec_C7_container_validation.2.1 _ (JVal.jstr "x") rfl rfl

/-- C10: `setSettings` leaves every field not mentioned in the partial
update unchanged; in particular updating only the cadence preserves the
language and the API key. -/
theorem spec_C10_setSettings :
    ∀ (cur : Settings) (p : SettingsPatch),
      (p.cadence = none → (setSettings cur p).cadence = cur.cadence) ∧
      (p.language = none → (setSettings cur p).language = cur.language) ∧
      (p.openaiKey = none → (setSettings cur p).openaiKey = cur.openaiKey) ∧
      (∀ n, setSettings cur { cadence := some n, language := none, openaiKey := none } =
        { cur with cadence := n }) := by
  intro cur p
  refine ⟨?_, ?_, ?_, ?_⟩
  · intro h
    show p.cadence.getD cur.cadence = cur.cadence
    rw [h]
    rfl
  · intro h
    show p.language.getD cur.language = cur.language
    rw [h]
    rfl
  · intro h
    show p.openaiKey.getD cur.openaiKey = cur.openaiKey
    rw [h]
    rfl
  · intro n
    rfl

/-- C10 witness: a cadence-only update on concrete settings keeps the
language and the key. -/
theorem spec_C10_setSettings_witness :
    (setSettings { cadence := 10, language := "pt-BR", openaiKey := "k" }
        { cadence := none, language := some "en", openaiKey := none }).cadence = 10 ∧
    setSettings { cadence := 10, language := "pt-BR", openaiKey := "k" }
        { cadence := some 30, language := none, openaiKey := none } =
      { cadence := 30, language := "pt-BR", openaiKey := "k" } :=
  ⟨(spec_C10_setSettings { cadence := 10, language := "pt-BR", openaiKey := "k" }
      { cadence := none, language := some "en", openaiKey := none }).1 rfl,
    (spec_C10_setSettings { cadence := 10, language := "pt-BR", openaiKey := "k" }
      { cadence := none, language := some "en", openaiKey := none }).2.2.2 30⟩
